import Mathlib

/-!
Verification development for the sfbaysim forecast data pipeline.

The definitions below are a shallow embedding of the Python sources:
  * src/data/cache_manager.py   (CacheManager)
  * src/data/forecast_window.py (ForecastWindowManager)
  * src/data/current_window.py  (CurrentWindowManager)
  * src/data/hrrr_grid.py       (HRRRGridData.fetch_and_build)
  * src/data/sfbofs_hour.py     (SFBOFSHourData.fetch_and_build)

Times and float quantities are modelled as rationals, machine file sizes as
naturals, datetimes as integer epoch seconds (for the fetch search) or as a
calendar record (for filename formatting).  Filesystem effects are modelled
by explicit flags on the metadata entries (whether the tracked file is on
disk and whether unlinking it succeeds) and by oracles passed to the fetch
loops (whether a candidate is cached, whether the network attempt succeeds).
-/

namespace SFBaySim

/-! ### Generic helpers -/

/-- Zero padding as in a Python format string such as f"{n:02d}" for
nonnegative n: pad the decimal representation on the left with zeros up to
width w, never truncating. -/
def pad (w : Nat) (n : Nat) : String :=
  let s := toString n
  if s.length < w then (List.replicate (w - s.length) '0').asString ++ s else s

/-- Python float modulo (the % operator): the result has the sign of the
divisor; for y > 0 this is x - y * floor (x / y), landing in [0, y). -/
def qmod (x y : ℚ) : ℚ := x - y * ⌊x / y⌋

/-! ### CacheManager (src/data/cache_manager.py)

`CycleTime` models the calendar fields of the `cycle_time` datetime that
`get_cache_path` reads (strftime "%Y%m%d" and the hour attribute). -/

structure CycleTime where
  year : Nat
  month : Nat
  day : Nat
  hour : Nat
deriving DecidableEq

/-- strftime "%Y%m%d": the year zero-padded to 4 digits, month and day to 2. -/
def dateStr (t : CycleTime) : String :=
  pad 4 t.year ++ pad 2 t.month ++ pad 2 t.day

/-- CacheManager.get_cache_path (cache_manager.py lines 140-162), returning
the generated cache filename, or the ValueError message for an unknown
data_type.  The hrrr branch formats the forecast hour with f"{:02d}", the
sfbofs branch with f"{:03d}". -/
def getCachePath (dataType : String) (cycleTime : CycleTime) (forecastHour : Nat) :
    Except String String :=
  let dstr := dateStr cycleTime
  let cyc := cycleTime.hour
  if dataType = "hrrr" then
    Except.ok ("hrrr_" ++ dstr ++ "_" ++ pad 2 cyc ++ "z_f" ++ pad 2 forecastHour ++ ".grib2")
  else if dataType = "sfbofs" then
    Except.ok ("sfbofs_" ++ dstr ++ "_" ++ pad 2 cyc ++ "z_f" ++ pad 3 forecastHour ++ ".nc")
  else
    Except.error ("Unknown data type: " ++ dataType)

/-- One tracked metadata entry of the CacheManager (one value of
self.metadata, keyed by filename).  `onDisk` models whether the underlying
cache file exists on disk, `unlinkOk` whether an unlink attempt on it
succeeds; both are filesystem facts the Python code observes. -/
structure CEntry where
  filename : String
  size_bytes : Nat
  created_time : ℚ
  last_accessed : ℚ
  onDisk : Bool
  unlinkOk : Bool
deriving DecidableEq

/-- Total tracked size: sum of the size_bytes of all entries, as used by
enforce_size_limit. -/
def sumSizes (l : List CEntry) : ℚ :=
  (l.map (fun e => (e.size_bytes : ℚ))).sum

/-- True when the Python code actually unlinks the file of this entry: the
file exists and the unlink call does not raise. -/
def fileGone (e : CEntry) : Bool := e.onDisk && e.unlinkOk

/-- The loop body of CacheManager.enforce_expiry (lines 234-245): walk the
metadata entries in index order, collect into files_to_remove the filename
of every entry with created_time < cutoff, and count the successful file
deletions (deleted_count increments only when the file exists and unlink
does not raise). -/
def expiryNames (cutoff : ℚ) : List CEntry → List String × Nat
  | [] => ([], 0)
  | e :: rest =>
    let r := expiryNames cutoff rest
    if e.created_time < cutoff then
      (e.filename :: r.1, (if fileGone e then 1 else 0) + r.2)
    else r

/-- CacheManager.enforce_expiry (lines 217-254): cutoff is now minus days of
seconds; every entry in files_to_remove is deleted from the metadata index;
the return value is deleted_count (successful unlinks only). -/
def enforceExpiry (now days : ℚ) (idx : List CEntry) : List CEntry × Nat :=
  let cutoff := now - days * 24 * 60 * 60
  let r := expiryNames cutoff idx
  (idx.filter (fun e => !(r.1.contains e.filename)), r.2)

/-- The comparison key of enforce_size_limit: ascending last_accessed. -/
def accessLE (a b : CEntry) : Prop := a.last_accessed ≤ b.last_accessed

instance : DecidableRel accessLE := fun a b =>
  inferInstanceAs (Decidable (a.last_accessed ≤ b.last_accessed))

instance : IsTotal CEntry accessLE := ⟨fun a b => le_total a.last_accessed b.last_accessed⟩

instance : IsTrans CEntry accessLE := ⟨fun _ _ _ h1 h2 => le_trans h1 h2⟩

/-- Python sorted(metadata.items(), key=last_accessed) is a stable sort by
ascending last_accessed; insertion sort is stable with the same order. -/
def sortByAccess (l : List CEntry) : List CEntry := l.insertionSort accessLE

/-- The eviction loop of CacheManager.enforce_size_limit (lines 286-302):
walk the sorted entries; stop as soon as the running total is within budget;
otherwise put the filename in files_to_remove, subtract the file size from
the running total only when the unlink succeeded, and count successful
unlinks. -/
def evictNames (maxBytes : ℚ) : ℚ → List CEntry → List String × Nat
  | _, [] => ([], 0)
  | total, e :: rest =>
    if total ≤ maxBytes then ([], 0)
    else
      let total2 := if fileGone e then total - (e.size_bytes : ℚ) else total
      let r := evictNames maxBytes total2 rest
      (e.filename :: r.1, (if fileGone e then 1 else 0) + r.2)

/-- CacheManager.enforce_size_limit (lines 256-311) with the byte budget
already computed (gb * 1024^3): return unchanged when the total tracked size
is within budget, otherwise evict in ascending last_accessed order and drop
every evicted filename from the metadata index. -/
def enforceSizeLimit (maxBytes : ℚ) (idx : List CEntry) : List CEntry × Nat :=
  let total := sumSizes idx
  if total ≤ maxBytes then (idx, 0)
  else
    let r := evictNames maxBytes total (sortByAccess idx)
    (idx.filter (fun e => !(r.1.contains e.filename)), r.2)

/-! ### Window managers (src/data/forecast_window.py, src/data/current_window.py)

A window slot is the dict {hour, valid_time, data} appended by initialize;
data is None while the hour is not loaded.  Times are rational epoch
seconds, so timedelta(hours=1) is 3600. -/

structure Slot (α : Type) where
  hour : Nat
  valid_time : ℚ
  data : Option α
deriving DecidableEq

/-- Config constants from config.py. -/
def FORECAST_WINDOW_HOURS : Nat := 6

def FORECAST_PRIORITY_HOURS : Nat := 2

def FORECAST_PRELOAD_MARGIN : ℚ := 1/2

/-- The slot creation loop of initialize (forecast_window.py lines 63-69 and
current_window.py lines 60-66): slot i has hour i, valid_time start + i
hours, and no data. -/
def initWindow (α : Type) (n : Nat) (startTime : ℚ) : List (Slot α) :=
  (List.range n).map (fun i => ⟨i, startTime + 3600 * i, none⟩)

/-- The priority queueing of initialize (lines 72-73): hour indices
0 .. min(priority, n) - 1. -/
def initQueue (priority n : Nat) : List Nat := List.range (min priority n)

/-- The bracketing-hour scan shared by get_wind, get_current and
get_current_batch (forecast_window.py lines 154-168): walk the window in
order, skipping slots whose data is None or not ready; hour_before is
replaced when the slot time is <= the query time and strictly later than the
current best; hour_after when the slot time is > the query time and strictly
earlier than the current best. -/
def bracketStep {α : Type} (isReady : α → Bool) (t : ℚ)
    (acc : Option (Slot α) × Option (Slot α)) (s : Slot α) :
    Option (Slot α) × Option (Slot α) :=
  match s.data with
  | none => acc
  | some d =>
    if isReady d then
      let b :=
        if s.valid_time ≤ t then
          match acc.1 with
          | none => some s
          | some hb => if hb.valid_time < s.valid_time then some s else some hb
        else acc.1
      let a :=
        if t < s.valid_time then
          match acc.2 with
          | none => some s
          | some ha => if s.valid_time < ha.valid_time then some s else some ha
        else acc.2
      (b, a)
    else acc

def scanBrackets {α : Type} (isReady : α → Bool) (t : ℚ) (w : List (Slot α)) :
    Option (Slot α) × Option (Slot α) :=
  w.foldl (bracketStep isReady t) (none, none)

/-- Whether a slot counts as Ready for the bracket scan: its data is not
None and the data object reports is_ready. -/
def slotIsReady {α : Type} (isReady : α → Bool) (s : Slot α) : Bool :=
  match s.data with
  | some d => isReady d
  | none => false

/-- HRRRGridData as get_wind sees it: the is_ready flag and the outcome of
get_wind_at_point once ready (hrrr_grid.py lines 347-394; none models both
the not-ready return and the exception path that returns None). -/
structure WindData where
  is_ready : Bool
  windAt : ℚ → ℚ → Option (ℚ × ℚ)

/-- HRRRGridData.get_wind_at_point: None when not ready, otherwise the
(direction, speed) the interpolators produce. -/
def getWindAtPoint (d : WindData) (lat lon : ℚ) : Option (ℚ × ℚ) :=
  if d.is_ready then d.windAt lat lon else none

/-- get_wind_at_point called on the data of a slot the bracket scan
selected; the scan only selects slots whose data is not None. -/
def slotWindAt (s : Slot WindData) (lat lon : ℚ) : Option (ℚ × ℚ) :=
  match s.data with
  | some d => getWindAtPoint d lat lon
  | none => none

/-- The wraparound handling of get_wind (forecast_window.py lines 213-218):
bring dir_after - dir_before into [-180, 180] by one +-360 correction. -/
def wrapDelta (dirBefore dirAfter : ℚ) : ℚ :=
  let d := dirAfter - dirBefore
  if 180 < d then d - 360 else if d < -180 then d + 360 else d

/-- The temporal blend of get_wind (forecast_window.py lines 206-222):
linear speed interpolation, direction interpolated along the wrapped delta
and renormalized by % 360. -/
def tempInterpWind (windBefore windAfter : ℚ × ℚ) (fraction : ℚ) : ℚ × ℚ :=
  let speed := windBefore.2 + fraction * (windAfter.2 - windBefore.2)
  let direction := qmod (windBefore.1 + fraction * wrapDelta windBefore.1 windAfter.1) 360
  (direction, speed)

/-- ForecastWindowManager.get_wind (forecast_window.py lines 139-225). -/
def getWind (w : List (Slot WindData)) (simTime lat lon : ℚ) : Option (ℚ × ℚ) :=
  match scanBrackets (fun d => d.is_ready) simTime w with
  | (some hb, some ha) =>
    match slotWindAt hb lat lon, slotWindAt ha lat lon with
    | some wb, some wa =>
      let total := ha.valid_time - hb.valid_time
      if total = 0 then some wb
      else some (tempInterpWind wb wa ((simTime - hb.valid_time) / total))
    | _, _ => none
  | (some hb, none) => slotWindAt hb lat lon
  | (none, some ha) => slotWindAt ha lat lon
  | (none, none) => none

/-- SFBOFSHourData as the current window sees it: the is_ready flag and the
two component interpolators; none models a NaN result (outside coverage),
which both query paths replace with 0. -/
structure CurrentData where
  is_ready : Bool
  interpU : ℚ → ℚ → Option ℚ
  interpV : ℚ → ℚ → Option ℚ

/-- The longitude conversion shared by both query paths (sfbofs_hour.py
lines 237 and 272): negative longitudes shift into the 0-360 convention. -/
def lon360 (lon : ℚ) : ℚ := if lon < 0 then lon + 360 else lon

/-- SFBOFSHourData.get_current_at_point (sfbofs_hour.py lines 218-253):
(0, 0) when not ready; otherwise interpolate both components at the
converted longitude, turning NaN into 0. -/
def getCurrentAtPoint (d : CurrentData) (lat lon : ℚ) : ℚ × ℚ :=
  if d.is_ready then
    ((d.interpU (lon360 lon) lat).getD 0, (d.interpV (lon360 lon) lat).getD 0)
  else (0, 0)

/-- SFBOFSHourData.get_current_batch (sfbofs_hour.py lines 255-290): a list
of (0, 0) of the same length when not ready; otherwise the vectorized
evaluation, which is the pointwise computation of get_current_at_point
applied to every (lat, lon) pair. -/
def srcCurrentBatch (d : CurrentData) (pts : List (ℚ × ℚ)) : List (ℚ × ℚ) :=
  if d.is_ready then
    pts.map (fun p => ((d.interpU (lon360 p.2) p.1).getD 0, (d.interpV (lon360 p.2) p.1).getD 0))
  else List.replicate pts.length (0, 0)

/-- get_current_at_point on the data of a scanned slot. -/
def slotCurrentAt (s : Slot CurrentData) (lat lon : ℚ) : ℚ × ℚ :=
  match s.data with
  | some d => getCurrentAtPoint d lat lon
  | none => (0, 0)

/-- get_current_batch on the data of a scanned slot. -/
def slotCurrentBatch (s : Slot CurrentData) (pts : List (ℚ × ℚ)) : List (ℚ × ℚ) :=
  match s.data with
  | some d => srcCurrentBatch d pts
  | none => List.replicate pts.length (0, 0)

/-- CurrentWindowManager.get_current (current_window.py lines 144-201): the
same bracket scan, but (0.0, 0.0) is returned unless BOTH brackets exist;
otherwise both hours are queried and blended linearly. -/
def getCurrent (w : List (Slot CurrentData)) (simTime lat lon : ℚ) : ℚ × ℚ :=
  match scanBrackets (fun d => d.is_ready) simTime w with
  | (some hb, some ha) =>
    let cb := slotCurrentAt hb lat lon
    let ca := slotCurrentAt ha lat lon
    let total := ha.valid_time - hb.valid_time
    if total = 0 then cb
    else
      let f := (simTime - hb.valid_time) / total
      (cb.1 + f * (ca.1 - cb.1), cb.2 + f * (ca.2 - cb.2))
  | _ => (0, 0)

/-- CurrentWindowManager.get_current_batch (current_window.py lines
203-258): identical bracket scan; [(0.0, 0.0)] * len(points) unless both
brackets exist; otherwise one batch query per bracket and a pointwise
linear blend over the zipped results. -/
def getCurrentBatch (w : List (Slot CurrentData)) (simTime : ℚ) (pts : List (ℚ × ℚ)) :
    List (ℚ × ℚ) :=
  match scanBrackets (fun d => d.is_ready) simTime w with
  | (some hb, some ha) =>
    let cb := slotCurrentBatch hb pts
    let ca := slotCurrentBatch ha pts
    let total := ha.valid_time - hb.valid_time
    if total = 0 then cb
    else
      let f := (simTime - hb.valid_time) / total
      (cb.zip ca).map (fun q => (q.1.1 + f * (q.2.1 - q.1.1), q.1.2 + f * (q.2.2 - q.1.2)))
  | _ => List.replicate pts.length (0, 0)

/-- update_window (forecast_window.py lines 227-266, identical in
current_window.py lines 260-294): nothing happens on an empty window;
when the time to the last valid_time drops below the preload margin (in
hours), pop slot 0, append a fresh empty slot one hour past the previous
last slot, and enqueue the new index (the new window length minus one)
unless it is already queued. -/
def updateWindow {α : Type} (simTime : ℚ) (w : List (Slot α)) (queue : List Nat) :
    List (Slot α) × List Nat :=
  match w.getLast? with
  | none => (w, queue)
  | some last =>
    if (last.valid_time - simTime) / 3600 < FORECAST_PRELOAD_MARGIN then
      let w2 := w.drop 1 ++ [⟨last.hour + 1, last.valid_time + 3600, none⟩]
      let newIdx := w2.length - 1
      (w2, if queue.contains newIdx then queue else queue ++ [newIdx])
    else (w, queue)

/-! ### The background loader loop (forecast_window.py lines 85-137,
current_window.py lines 82-142)

One iteration of the worker loop, with the fetch outcome supplied by an
oracle `fails` mapping the hour number of a slot to whether that call of
fetch_and_build raises.  The loop pops the FIRST queued index (a positional
index into the window list), reads the slot there, runs fetch_and_build,
and on success stores the data back into the first slot with the matching
hour number and increments the loaded counter; on an exception nothing else
happens.  When the queue is empty and fewer than n hours are loaded, the
loop enqueues next_hour = loaded_count (if in range and not already
queued). -/

structure LoaderState where
  window : List (Slot Unit)
  queue : List Nat
  loaded : Nat
deriving DecidableEq

/-- The success path (lines 120-127): store the data into the first slot
whose hour number matches. -/
def setSlotData (h : Nat) (d : Unit) : List (Slot Unit) → List (Slot Unit)
  | [] => []
  | s :: rest =>
    if s.hour = h then ⟨s.hour, s.valid_time, some d⟩ :: rest
    else s :: setSlotData h d rest

/-- One iteration of _background_loader. -/
def loaderStep (fails : Nat → Bool) (n : Nat) (st : LoaderState) : LoaderState :=
  match st.queue with
  | i :: rest =>
    match st.window[i]? with
    | none => ⟨st.window, rest, st.loaded⟩
    | some slot =>
      if fails slot.hour then ⟨st.window, rest, st.loaded⟩
      else ⟨setSlotData slot.hour () st.window, rest, st.loaded + 1⟩
  | [] =>
    if st.loaded < n then
      if st.loaded < n ∧ ¬ st.queue.contains st.loaded then
        ⟨st.window, st.queue ++ [st.loaded], st.loaded⟩
      else st
    else st

/-- The initial loader state of a session: the freshly initialized window
with the priority hours queued and nothing loaded. -/
def c2Init : LoaderState :=
  ⟨initWindow Unit FORECAST_WINDOW_HOURS 0,
    initQueue FORECAST_PRIORITY_HOURS FORECAST_WINDOW_HOURS, 0⟩

/-- The window invariant of the spec: exactly n slots, with valid_time
ascending at contiguous hourly (3600 second) spacing from slot 0. -/
def WindowInv {α : Type} (n : Nat) (w : List (Slot α)) : Prop :=
  w.length = n ∧
  ∀ (i : Nat) (hi : i < w.length) (h0 : 0 < w.length),
    (w.get ⟨i, hi⟩).valid_time = (w.get ⟨0, h0⟩).valid_time + 3600 * i

/-! ### The candidate-cycle searches of fetch_and_build
(src/data/hrrr_grid.py lines 61-125, src/data/sfbofs_hour.py lines 50-124)

Datetimes are integer epoch seconds.  A candidate is the pair (cycle time,
forecast hour).  The observable acquisition behaviour of each loop is
recorded as an event trace; `cached` tells whether cache_path.exists() is
true for a candidate, `netOk` whether the remote acquisition (download, or
OpenDAP open) finally succeeds after its internal bounded retries. -/

abbrev Cand := ℤ × ℤ

inductive FetchEvent where
  | cacheCheck (c : Cand) (hit : Bool)
  | accessUpdate (c : Cand)
  | download (c : Cand) (ok : Bool)
  | registerFile (c : Cand)
  | opendapOpen (c : Cand) (ok : Bool)
deriving DecidableEq

/-- An event that touches the CacheManager or the on-disk cache. -/
def FetchEvent.isCacheEvent : FetchEvent → Bool
  | .cacheCheck _ _ => true
  | .accessUpdate _ => true
  | .registerFile _ => true
  | _ => false

/-- datetime.replace(minute=0, second=0, microsecond=0) on an epoch time. -/
def floorHour (t : ℤ) : ℤ := t - t % 3600

/-- The date part of a datetime: replace(hour=c) first zeroes everything
below the day, then sets the hour. -/
def dayStart (t : ℤ) : ℤ := t - t % 86400

/-- Python round(): round half to even. -/
def pyRound (q : ℚ) : ℤ :=
  let f := ⌊q⌋
  let r := q - f
  if r < 1/2 then f else if 1/2 < r then f + 1 else if f % 2 = 0 then f else f + 1

/-- HRRRGridData.fetch_and_build candidate loop (hrrr_grid.py lines 78-119)
over the remaining hours_back values: run_time is now minus hours_back
hours floored to the hour; the forecast hour int()-truncates; out-of-range
[0, 48] candidates are skipped; a candidate is first checked against the
cache (a hit updates the access time and ends the search); in offline mode
the network is never attempted; otherwise the file is downloaded and on
success registered with the CacheManager, ending the search; on a download
failure the next older candidate is tried. -/
def hrrrSearch (cached netOk : Cand → Bool) (offline : Bool) (target now : ℤ) :
    List Nat → List FetchEvent × Option Cand
  | [] => ([], none)
  | hb :: rest =>
    let run := floorHour (now - 3600 * (hb : ℤ))
    let fh := Int.tdiv (target - run) 3600
    if fh < 0 ∨ 48 < fh then hrrrSearch cached netOk offline target now rest
    else
      let c : Cand := (run, fh)
      if cached c then ([.cacheCheck c true, .accessUpdate c], some c)
      else if offline then
        let r := hrrrSearch cached netOk offline target now rest
        (.cacheCheck c false :: r.1, r.2)
      else if netOk c then
        ([.cacheCheck c false, .download c true, .registerFile c], some c)
      else
        let r := hrrrSearch cached netOk offline target now rest
        (.cacheCheck c false :: .download c false :: r.1, r.2)

/-- The full HRRR search: hours_back in range(72). -/
def hrrrFetch (cached netOk : Cand → Bool) (offline : Bool) (target now : ℤ) :
    List FetchEvent × Option Cand :=
  hrrrSearch cached netOk offline target now (List.range 72)

/-- SFBOFSHourData.fetch_and_build candidate loop (sfbofs_hour.py lines
60-121) over the remaining (days_back, cycle) pairs: the cycle time is the
day of (target - days_back days) at the cycle hour; future cycles and
out-of-range [0, 48] forecast hours are skipped; the dataset is opened
directly over OpenDAP (after its internal bounded retries) - no cache is
consulted and nothing is registered; on failure the next candidate is
tried. -/
def sfbofsSearch (netOk : Cand → Bool) (target now : ℤ) :
    List (Nat × Nat) → List FetchEvent × Option Cand
  | [] => ([], none)
  | (db, cyc) :: rest =>
    let test := target - 86400 * (db : ℤ)
    let cycTime := dayStart test + 3600 * (cyc : ℤ)
    if now < cycTime then sfbofsSearch netOk target now rest
    else
      let fh := pyRound (((target - cycTime : ℤ) : ℚ) / 3600)
      if fh < 0 ∨ 48 < fh then sfbofsSearch netOk target now rest
      else
        let c : Cand := (cycTime, fh)
        if netOk c then ([.opendapOpen c true], some c)
        else
          let r := sfbofsSearch netOk target now rest
          (.opendapOpen c false :: r.1, r.2)

/-- The full SFBOFS search: days_back in range(3), cycles tried newest
first (reversed SFBOFS_MODEL_CYCLES = [21, 15, 9, 3]). -/
def sfbofsFetch (netOk : Cand → Bool) (target now : ℤ) :
    List FetchEvent × Option Cand :=
  sfbofsSearch netOk target now
    ((List.range 3).flatMap (fun db => [21, 15, 9, 3].map (fun cyc => (db, cyc))))

/-! ### Theorems -/

set_option maxRecDepth 4096 in
/-- Zero-padding to width 2 yields exactly 2 characters for inputs below
100 (checked exhaustively). -/
lemma pad2_length_eq : ∀ n : Fin 100, (pad 2 n.1).length = 2 := by decide

set_option maxRecDepth 16384 in
/-- Zero-padding to width 3 yields exactly 3 characters for inputs below
1000 (checked exhaustively). -/
lemma pad3_length_eq : ∀ n : Fin 1000, (pad 3 n.1).length = 3 := by decide

/-- C8, counterexample: the filenames the code produces carry the
source-specific markers hrrr/sfbofs and extensions .grib2/.nc, not the
wind_/current_ forms the claim states: at cycle 2025-01-30 14z, forecast
hour 6, the generated names do not start with wind_ or current_. -/
theorem C8_counterexample :
    getCachePath "hrrr" ⟨2025, 1, 30, 14⟩ 6 = Except.ok "hrrr_20250130_14z_f06.grib2" ∧
    getCachePath "sfbofs" ⟨2025, 1, 30, 14⟩ 6 = Except.ok "sfbofs_20250130_14z_f006.nc" ∧
    "hrrr_20250130_14z_f06.grib2".data.take 5 ≠ "wind_".data ∧
    "sfbofs_20250130_14z_f006.nc".data.take 8 ≠ "current_".data := by
  refine ⟨rfl, rfl, ?_, ?_⟩ <;> decide

/-- C8, amended: get_cache_path is deterministic and bit-exact, with the
wind (hrrr) filename hrrr_{YYYYMMDD}_{HH}z_f{FF}.grib2 using a forecast
hour zero-padded to exactly 2 digits, and the current (sfbofs) filename
sfbofs_{YYYYMMDD}_{HH}z_f{FFF}.nc using exactly 3 digits, date and cycle
hour taken from cycle_time. -/
theorem C8_amended_filenames :
    ∀ (ct : CycleTime) (fh : Nat),
      (fh < 100 →
        getCachePath "hrrr" ct fh =
          Except.ok ("hrrr_" ++ dateStr ct ++ "_" ++ pad 2 ct.hour ++ "z_f" ++
            pad 2 fh ++ ".grib2") ∧
        (pad 2 fh).length = 2) ∧
      (fh < 1000 →
        getCachePath "sfbofs" ct fh =
          Except.ok ("sfbofs_" ++ dateStr ct ++ "_" ++ pad 2 ct.hour ++ "z_f" ++
            pad 3 fh ++ ".nc") ∧
        (pad 3 fh).length = 3) := by
  intro ct fh
  constructor
  · intro h
    exact ⟨rfl, pad2_length_eq ⟨fh, h⟩⟩
  · intro h
    exact ⟨rfl, pad3_length_eq ⟨fh, h⟩⟩

/-- C8, witness: the amended theorem evaluated at cycle 2025-01-30 14z and
forecast hour 6. -/
theorem C8_witness :
    getCachePath "hrrr" ⟨2025, 1, 30, 14⟩ 6 =
      Except.ok ("hrrr_" ++ dateStr ⟨2025, 1, 30, 14⟩ ++ "_" ++ pad 2 14 ++ "z_f" ++
        pad 2 6 ++ ".grib2") ∧
    (pad 2 6).length = 2 :=
  (C8_amended_filenames ⟨2025, 1, 30, 14⟩ 6).1 (by decide)

/-- C10: get_cache_path raises ValueError exactly when the data type is
neither hrrr nor sfbofs, and for the two known types it always returns a
path. -/
theorem C10_cache_path_error_iff :
    ∀ (dt : String) (ct : CycleTime) (fh : Nat),
      ((∃ e, getCachePath dt ct fh = Except.error e) ↔ (dt ≠ "hrrr" ∧ dt ≠ "sfbofs")) ∧
      (∃ p, getCachePath "hrrr" ct fh = Except.ok p) ∧
      (∃ p, getCachePath "sfbofs" ct fh = Except.ok p) := by
  intro dt ct fh
  refine ⟨⟨fun h => ?_, fun h => ?_⟩, ⟨_, rfl⟩, ⟨_, rfl⟩⟩
  · obtain ⟨e, he⟩ := h
    unfold getCachePath at he
    constructor
    · intro hdt
      rw [hdt] at he
      simp at he
    · intro hdt
      rw [hdt] at he
      simp at he
  · unfold getCachePath
    rw [if_neg h.1, if_neg h.2]
    exact ⟨_, rfl⟩

/-- The Python float modulo by 360 lands in [0, 360). -/
lemma qmod_360_mem (x : ℚ) : 0 ≤ qmod x 360 ∧ qmod x 360 < 360 := by
  unfold qmod
  have hle : (⌊x / 360⌋ : ℚ) ≤ x / 360 := Int.floor_le _
  have hlt : x / 360 < (⌊x / 360⌋ : ℚ) + 1 := Int.lt_floor_add_one _
  constructor
  · nlinarith
  · nlinarith

/-- C6: the temporally interpolated direction is the before direction plus
the fraction times a signed delta lying in [-180, 180] and congruent mod
360 to the raw difference of the directions, renormalized into [0, 360);
and interpolating between 350 and 10 degrees at one half gives 0, never
180. -/
theorem C6_direction_interpolation :
    (∀ (wb wa : ℚ × ℚ) (f : ℚ),
      0 ≤ wb.1 → wb.1 < 360 → 0 ≤ wa.1 → wa.1 < 360 → 0 ≤ f → f ≤ 1 →
      ∃ δ : ℚ,
        -180 ≤ δ ∧ δ ≤ 180 ∧ (∃ k : ℤ, δ - (wa.1 - wb.1) = 360 * k) ∧
        (tempInterpWind wb wa f).1 = qmod (wb.1 + f * δ) 360 ∧
        0 ≤ (tempInterpWind wb wa f).1 ∧ (tempInterpWind wb wa f).1 < 360) ∧
    (∀ s1 s2 : ℚ,
      (tempInterpWind (350, s1) (10, s2) (1/2)).1 = 0 ∧
      (tempInterpWind (350, s1) (10, s2) (1/2)).1 ≠ 180) := by
  constructor
  · intro wb wa f hb0 hb1 ha0 ha1 hf0 hf1
    refine ⟨wrapDelta wb.1 wa.1, ?_, ?_, ?_, ?_, ?_, ?_⟩
    · simp only [wrapDelta]
      split_ifs with h1 h2 <;> linarith
    · simp only [wrapDelta]
      split_ifs with h1 h2 <;> linarith
    · simp only [wrapDelta]
      split_ifs with h1 h2
      · exact ⟨-1, by push_cast; ring⟩
      · exact ⟨1, by push_cast; ring⟩
      · exact ⟨0, by push_cast; ring⟩
    · rfl
    · have h := qmod_360_mem (wb.1 + f * wrapDelta wb.1 wa.1)
      exact h.1
    · have h := qmod_360_mem (wb.1 + f * wrapDelta wb.1 wa.1)
      exact h.2
  · intro s1 s2
    have hval : (tempInterpWind (350, s1) (10, s2) (1/2)).1 = 0 := by
      show qmod (350 + 1/2 * wrapDelta 350 10) 360 = 0
      have hd : wrapDelta 350 10 = 20 := by
        simp only [wrapDelta]
        norm_num
      rw [hd]
      have h60 : (350 : ℚ) + 1 / 2 * 20 = 360 := by norm_num
      rw [qmod, h60]
      have hfl : ⌊(360 : ℚ) / 360⌋ = 1 := by
        norm_num
      rw [hfl]
      norm_num
    exact ⟨hval, by rw [hval]; norm_num⟩

/-- C6, witness: the interpolation theorem applied to concrete bracketing
winds (350 degrees at speed 5, 10 degrees at speed 7) and fraction 1/2. -/
theorem C6_witness :
    ∃ δ : ℚ,
      -180 ≤ δ ∧ δ ≤ 180 ∧ (∃ k : ℤ, δ - ((10 : ℚ) - 350) = 360 * k) ∧
      (tempInterpWind (350, 5) (10, 7) (1/2)).1 = qmod (350 + (1/2) * δ) 360 ∧
      0 ≤ (tempInterpWind (350, 5) (10, 7) (1/2)).1 ∧
      (tempInterpWind (350, 5) (10, 7) (1/2)).1 < 360 :=
  C6_direction_interpolation.1 (350, 5) (10, 7) (1/2) (by norm_num) (by norm_num)
    (by norm_num) (by norm_num) (by norm_num) (by norm_num)

/-- The source-level batch query on a one-element point list is the
one-element list of the source-level scalar query. -/
lemma slotCurrentBatch_singleton (s : Slot CurrentData) (p : ℚ × ℚ) :
    slotCurrentBatch s [p] = [slotCurrentAt s p.1 p.2] := by
  unfold slotCurrentBatch slotCurrentAt srcCurrentBatch getCurrentAtPoint
  cases s.data with
  | none => rfl
  | some d =>
    by_cases h : d.is_ready <;> simp [h]

/-- C9: once given the same window state, the batch current query on a
one-element list is the one-element list of the scalar current query: same
bracket selection, same temporal blending (and the same zero-current
defaults when a bracket is missing). -/
theorem C9_batch_singleton :
    ∀ (w : List (Slot CurrentData)) (t : ℚ) (p : ℚ × ℚ),
      getCurrentBatch w t [p] = [getCurrent w t p.1 p.2] := by
  intro w t p
  unfold getCurrentBatch getCurrent
  rcases hscan : scanBrackets (fun d => d.is_ready) t w with ⟨b, a⟩
  rw [hscan]
  rcases b with _ | hb
  · rcases a with _ | ha <;> rfl
  · rcases a with _ | ha
    · rfl
    · by_cases htot : ha.valid_time - hb.valid_time = 0
      · simp [htot, slotCurrentBatch_singleton]
      · simp [htot, slotCurrentBatch_singleton, List.zip]

/-- C9, witness: the batch/scalar agreement evaluated on a concrete
one-slot window and point. -/
theorem C9_witness :
    getCurrentBatch [⟨0, 0, some ⟨true, fun _ _ => some 1, fun _ _ => some 2⟩⟩] 5
      [(37, -122)] =
    [getCurrent [⟨0, 0, some ⟨true, fun _ _ => some 1, fun _ _ => some 2⟩⟩] 5 37 (-122)] :=
  C9_batch_singleton _ 5 (37, -122)

/-- A slot that does not count as Ready leaves the bracket accumulator
unchanged. -/
lemma bracketStep_skip {α : Type} (isReady : α → Bool) (t : ℚ)
    (acc : Option (Slot α) × Option (Slot α)) (s : Slot α)
    (h : slotIsReady isReady s = false) :
    bracketStep isReady t acc s = acc := by
  unfold bracketStep
  unfold slotIsReady at h
  cases hd : s.data with
  | none => rfl
  | some d =>
    rw [hd] at h
    have h2 : isReady d = false := h
    simp [h2]

/-- If no slot of the window counts as Ready, the bracket scan finds
neither an earlier nor a later hour. -/
lemma scanBrackets_none {α : Type} (isReady : α → Bool) (t : ℚ) (w : List (Slot α))
    (h : ∀ s ∈ w, slotIsReady isReady s = false) :
    scanBrackets isReady t w = (none, none) := by
  unfold scanBrackets
  suffices hgen : ∀ acc, w.foldl (bracketStep isReady t) acc = acc from hgen _
  induction w with
  | nil => intro acc; rfl
  | cons s rest ih =>
    intro acc
    rw [List.foldl_cons, bracketStep_skip isReady t acc s (h s (by simp))]
    exact ih (fun s2 hs2 => h s2 (by simp [hs2])) acc

/-- When every Ready slot has valid_time <= t, the scan never finds an
"after" bracket. -/
lemma scanBrackets_no_after {α : Type} (isReady : α → Bool) (t : ℚ)
    (w : List (Slot α))
    (h : ∀ s ∈ w, slotIsReady isReady s = true → s.valid_time ≤ t) :
    (scanBrackets isReady t w).2 = none := by
  unfold scanBrackets
  suffices hgen : ∀ acc : Option (Slot α) × Option (Slot α), acc.2 = none →
      (w.foldl (bracketStep isReady t) acc).2 = none by
    exact hgen (none, none) rfl
  induction w with
  | nil =>
    intro acc hacc
    exact hacc
  | cons s rest ih =>
    intro acc hacc
    rw [List.foldl_cons]
    refine ih (fun s2 hs2 => h s2 (by simp [hs2])) _ ?_
    unfold bracketStep
    cases hd : s.data with
    | none => exact hacc
    | some d =>
      by_cases hr : isReady d
      · have hle : s.valid_time ≤ t := by
          refine h s (by simp) ?_
          unfold slotIsReady
          rw [hd]
          exact hr
        simp only [hr, if_true]
        rw [if_neg (not_lt.mpr hle)]
        exact hacc
      · simp only [hr]
        simpa using hacc

/-- When every Ready slot has valid_time > t, the scan never finds a
"before" bracket. -/
lemma scanBrackets_no_before {α : Type} (isReady : α → Bool) (t : ℚ)
    (w : List (Slot α))
    (h : ∀ s ∈ w, slotIsReady isReady s = true → t < s.valid_time) :
    (scanBrackets isReady t w).1 = none := by
  unfold scanBrackets
  suffices hgen : ∀ acc : Option (Slot α) × Option (Slot α), acc.1 = none →
      (w.foldl (bracketStep isReady t) acc).1 = none by
    exact hgen (none, none) rfl
  induction w with
  | nil =>
    intro acc hacc
    exact hacc
  | cons s rest ih =>
    intro acc hacc
    rw [List.foldl_cons]
    refine ih (fun s2 hs2 => h s2 (by simp [hs2])) _ ?_
    unfold bracketStep
    cases hd : s.data with
    | none => exact hacc
    | some d =>
      by_cases hr : isReady d
      · have hgt : t < s.valid_time := by
          refine h s (by simp) ?_
          unfold slotIsReady
          rw [hd]
          exact hr
        simp only [hr, if_true]
        rw [if_neg (not_le.mpr hgt)]
        exact hacc
      · simp only [hr]
        simpa using hacc

/-- C1, amended: the wind manager behaves as the claim states: with no
Ready slot the query signals not-ready (None); when only a "before"
bracket exists (every Ready slot at or before the query time, which forces
the after bracket empty) or only an "after" bracket exists, the single
bracketing slot is returned unmodified through get_wind_at_point.  The
current manager does not: get_current returns the zero current (0.0, 0.0)
whenever EITHER bracket is missing, including the single-bracket and the
no-Ready-slot cases, instead of the value of that slot or a not-ready
signal. -/
theorem C1_amended_bracket_fallback :
    (∀ (w : List (Slot WindData)) (t lat lon : ℚ),
      ((∀ s ∈ w, slotIsReady (fun d => d.is_ready) s = false) →
        getWind w t lat lon = none) ∧
      ((∀ s ∈ w, slotIsReady (fun d => d.is_ready) s = true → s.valid_time ≤ t) →
        (scanBrackets (fun d => d.is_ready) t w).2 = none) ∧
      ((∀ s ∈ w, slotIsReady (fun d => d.is_ready) s = true → t < s.valid_time) →
        (scanBrackets (fun d => d.is_ready) t w).1 = none) ∧
      (∀ b, scanBrackets (fun d => d.is_ready) t w = (some b, none) →
        getWind w t lat lon = slotWindAt b lat lon) ∧
      (∀ a, scanBrackets (fun d => d.is_ready) t w = (none, some a) →
        getWind w t lat lon = slotWindAt a lat lon)) ∧
    (∀ (w : List (Slot CurrentData)) (t lat lon : ℚ),
      ((scanBrackets (fun d => d.is_ready) t w).1 = none ∨
        (scanBrackets (fun d => d.is_ready) t w).2 = none) →
      getCurrent w t lat lon = (0, 0)) := by
  constructor
  · intro w t lat lon
    refine ⟨fun hnone => ?_, fun hle => scanBrackets_no_after _ _ _ hle,
      fun hgt => scanBrackets_no_before _ _ _ hgt, fun b hb => ?_, fun a ha => ?_⟩
    · unfold getWind
      rw [scanBrackets_none _ _ _ hnone]
    · unfold getWind
      rw [hb]
    · unfold getWind
      rw [ha]
  · intro w t lat lon h
    unfold getCurrent
    rcases hscan : scanBrackets (fun d => d.is_ready) t w with ⟨b, a⟩
    rw [hscan] at h
    rcases b with _ | hb <;> rcases a with _ | ha <;> simp_all

/-- C1, counterexample: a current window holding exactly one Ready slot
(valid at time 0, reporting current (5, 7) everywhere) queried at time 10:
only the "before" bracket exists, and get_current returns the zero current
(0, 0), not the value (5, 7) of that slot and not a not-ready signal. -/
theorem C1_counterexample :
    getCurrent [⟨0, 0, some ⟨true, fun _ _ => some 5, fun _ _ => some 7⟩⟩] 10 1 2 = (0, 0) ∧
    getCurrentAtPoint ⟨true, fun _ _ => some 5, fun _ _ => some 7⟩ 1 2 = (5, 7) ∧
    ((0, 0) : ℚ × ℚ) ≠ (5, 7) := by
  refine ⟨rfl, rfl, by norm_num [Prod.ext_iff]⟩

/-- C1, witness: the amended theorem applied to a one-slot wind window
bracketed only from below, and to the empty current window. -/
theorem C1_witness :
    getWind [⟨0, 0, some ⟨true, fun la lo => some (la + lo, 3)⟩⟩] 10 1 2 =
      slotWindAt ⟨0, 0, some ⟨true, fun la lo => some (la + lo, 3)⟩⟩ 1 2 ∧
    getCurrent ([] : List (Slot CurrentData)) 10 1 2 = (0, 0) :=
  ⟨(C1_amended_bracket_fallback.1 _ 10 1 2).2.2.2.1 _ rfl,
    C1_amended_bracket_fallback.2 [] 10 1 2 (Or.inl rfl)⟩

/-- C2, counterexample: with every fetch raising, the first iteration pops
index 0 (hour 0) and its fetch fails, the second pops index 1 and fails,
and the refill logic of the third iteration enqueues next_hour = loaded = 0:
the failed hour 0 is placed back on the load queue by the worker itself,
so a failed slot IS automatically retried in the same session. -/
theorem C2_counterexample :
    c2Init.queue = [0, 1] ∧
    (∀ h : Nat, (fun _ : Nat => true) h = true) ∧
    loaderStep (fun _ => true) FORECAST_WINDOW_HOURS c2Init =
      ⟨c2Init.window, [1], 0⟩ ∧
    loaderStep (fun _ => true) FORECAST_WINDOW_HOURS
      (loaderStep (fun _ => true) FORECAST_WINDOW_HOURS c2Init) =
      ⟨c2Init.window, [], 0⟩ ∧
    (loaderStep (fun _ => true) FORECAST_WINDOW_HOURS
      (loaderStep (fun _ => true) FORECAST_WINDOW_HOURS
        (loaderStep (fun _ => true) FORECAST_WINDOW_HOURS c2Init))).queue = [0] := by
  refine ⟨rfl, fun h => rfl, ?_, ?_, ?_⟩ <;> rfl

/-- C2, amended: at the moment a fetch raises, the worker leaves the slot
Empty and re-enqueues nothing (the popped index is simply dropped); but the
refill logic enqueues next_hour = loaded_count whenever the queue is empty
and fewer than N hours are loaded, and that index can coincide with a
previously failed hour, so failed hours can be automatically retried later
in the same session. -/
theorem C2_amended_failure_step :
    (∀ (f : Nat → Bool) (n : Nat) (st : LoaderState) (i : Nat) (rest : List Nat)
        (s : Slot Unit),
      st.queue = i :: rest → st.window[i]? = some s → f s.hour = true →
      loaderStep f n st = ⟨st.window, rest, st.loaded⟩) ∧
    (∀ (f : Nat → Bool) (n : Nat) (st : LoaderState),
      st.queue = [] → st.loaded < n →
      loaderStep f n st = ⟨st.window, [st.loaded], st.loaded⟩) := by
  constructor
  · intro f n st i rest s hq hw hf
    simp [loaderStep, hq, hw, hf]
  · intro f n st hq hl
    simp [loaderStep, hq, hl]

/-- C2, witness: the amended theorem applied to a concrete failing fetch on
a one-slot window, and to a concrete empty-queue refill. -/
theorem C2_witness :
    loaderStep (fun _ => true) 1 ⟨initWindow Unit 1 0, [0], 0⟩ =
      ⟨initWindow Unit 1 0, [], 0⟩ ∧
    loaderStep (fun _ => true) 1 ⟨initWindow Unit 1 0, [], 0⟩ =
      ⟨initWindow Unit 1 0, [0], 0⟩ :=
  ⟨C2_amended_failure_step.1 (fun _ => true) 1 ⟨initWindow Unit 1 0, [0], 0⟩ 0 []
      ⟨0, 0, none⟩ rfl (by simp [initWindow, List.range_succ]) rfl,
    C2_amended_failure_step.2 (fun _ => true) 1 ⟨initWindow Unit 1 0, [], 0⟩ rfl
      (by decide)⟩

/-- update_window below the preload margin slides the window: drop slot 0,
append the fresh slot one hour past the previous last slot. -/
lemma updateWindow_slide {α : Type} (sim : ℚ) (w : List (Slot α)) (q : List Nat)
    (last : Slot α) (hl : w.getLast? = some last)
    (hcond : (last.valid_time - sim) / 3600 < FORECAST_PRELOAD_MARGIN) :
    (updateWindow sim w q).1 =
      w.drop 1 ++ [⟨last.hour + 1, last.valid_time + 3600, none⟩] := by
  unfold updateWindow
  rw [hl]
  simp [hcond]

/-- update_window at or above the preload margin changes nothing. -/
lemma updateWindow_noop {α : Type} (sim : ℚ) (w : List (Slot α)) (q : List Nat)
    (last : Slot α) (hl : w.getLast? = some last)
    (hcond : ¬ (last.valid_time - sim) / 3600 < FORECAST_PRELOAD_MARGIN) :
    updateWindow sim w q = (w, q) := by
  unfold updateWindow
  rw [hl]
  simp [hcond]

/-- The getLast? hypothesis pins the last slot to index length - 1. -/
lemma getLast?_eq_get {α : Type} (w : List (Slot α)) (last : Slot α)
    (hl : w.getLast? = some last) (hpos : 0 < w.length) :
    last = w.get ⟨w.length - 1, by omega⟩ := by
  have h1 : w[w.length - 1]? = some last := by
    rw [← List.getLast?_eq_getElem?]
    exact hl
  rw [List.getElem?_eq_getElem (by omega)] at h1
  rw [List.get_eq_getElem]
  exact (Option.some.injEq _ _).mp h1.symm

/-- C7: initialize creates exactly n slots with valid_time start + i hours
and no data; update_window preserves the exactly-n contiguous-hourly
window invariant; and when the preload margin is reached it drops slot 0
and appends one empty slot exactly one hour past the previous last slot. -/
theorem C7_window_invariant :
    (∀ (α : Type) (n : Nat) (start : ℚ),
      (initWindow α n start).length = n ∧
      ∀ (i : Nat) (hi : i < (initWindow α n start).length),
        (initWindow α n start).get ⟨i, hi⟩ = ⟨i, start + 3600 * i, none⟩) ∧
    (∀ (α : Type) (n : Nat) (sim : ℚ) (w : List (Slot α)) (q : List Nat),
      WindowInv n w → WindowInv n (updateWindow sim w q).1) ∧
    (∀ (α : Type) (sim : ℚ) (w : List (Slot α)) (q : List Nat) (last : Slot α),
      w.getLast? = some last →
      (last.valid_time - sim) / 3600 < FORECAST_PRELOAD_MARGIN →
      (updateWindow sim w q).1 =
        w.drop 1 ++ [⟨last.hour + 1, last.valid_time + 3600, none⟩]) := by
  refine ⟨?_, ?_, fun α sim w q last hl hcond => updateWindow_slide sim w q last hl hcond⟩
  · intro α n start
    refine ⟨by simp [initWindow], fun i hi => ?_⟩
    have hi2 : i < n := by simpa [initWindow] using hi
    simp [initWindow]
  · intro α n sim w q hInv
    obtain ⟨hlen, hvt⟩ := hInv
    cases hl : w.getLast? with
    | none =>
      have hid : updateWindow sim w q = (w, q) := by
        unfold updateWindow
        rw [hl]
      rw [hid]
      exact ⟨hlen, hvt⟩
    | some last =>
      by_cases hcond : (last.valid_time - sim) / 3600 < FORECAST_PRELOAD_MARGIN
      · rw [updateWindow_slide sim w q last hl hcond]
        have hwne : w ≠ [] := by
          intro h
          rw [h] at hl
          simp at hl
        have hpos : 0 < w.length := List.length_pos.mpr hwne
        have hlast := getLast?_eq_get w last hl hpos
        refine ⟨by simp [hlen]; omega, ?_⟩
        intro i hi h0
        have hilt : i < w.length := by
          have := hi
          simp at this
          omega
        simp only [List.get_eq_getElem]
        rcases Nat.lt_or_ge i (w.length - 1) with hcase | hcase
        · -- both indices land in the dropped tail of the old window
          have h01 : 0 < w.length - 1 := by omega
          rw [List.getElem_append_left (by simpa using hcase)]
          rw [List.getElem_append_left (by simpa using h01)]
          rw [List.getElem_drop, List.getElem_drop]
          have e1 := hvt (1 + i) (by omega) hpos
          have e2 := hvt (1 + 0) (by omega) hpos
          simp only [List.get_eq_getElem] at e1 e2
          rw [e1, e2]
          push_cast
          ring
        · -- i is the appended slot
          have hieq : i = w.length - 1 := by omega
          rw [List.getElem_append_right (by simp; omega)]
          simp only [List.length_drop, List.getElem_singleton]
          rcases Nat.eq_or_lt_of_le hpos with h1 | h1
          · -- the old window had a single slot
            have hi0 : i = 0 := by omega
            rw [List.getElem_append_right (by simp; omega)]
            simp only [List.length_drop, List.getElem_singleton]
            subst hi0
            simp
          · -- the old window had at least two slots
            have h2 : 2 ≤ w.length := h1
            rw [List.getElem_append_left (by simp; omega)]
            rw [List.getElem_drop]
            have e1 := hvt (1 + 0) (by omega) hpos
            have e2 := hvt (w.length - 1) (by omega) hpos
            simp only [List.get_eq_getElem] at e1 e2
            rw [hlast, List.get_eq_getElem]
            simp only []
            rw [e1, e2, hieq]
            have hcast : ((w.length - 1 : Nat) : ℚ) = (w.length : ℚ) - 1 := by
              exact_mod_cast Nat.cast_sub hpos
            rw [hcast]
            push_cast
            ring
      · rw [updateWindow_noop sim w q last hl hcond]
        exact ⟨hlen, hvt⟩

/-- C7, witness: invariant preservation applied to a concrete one-slot
window that the update slides forward. -/
theorem C7_witness :
    WindowInv 1 ((updateWindow 0 [(⟨0, 0, none⟩ : Slot Unit)] ([] : List Nat)).1) :=
  C7_window_invariant.2.1 Unit 1 0 [⟨0, 0, none⟩] []
    ⟨rfl, fun i hi h0 => by
      match i, hi with
      | 0, _ => simp⟩

/-- files_to_remove of the expiry sweep: exactly the filenames of the
expired entries, in index order. -/
lemma expiryNames_fst (cutoff : ℚ) (l : List CEntry) :
    (expiryNames cutoff l).1 =
      (l.filter (fun e => decide (e.created_time < cutoff))).map (fun e => e.filename) := by
  induction l with
  | nil => rfl
  | cons e rest ih =>
    unfold expiryNames
    by_cases h : e.created_time < cutoff
    · simp [h, ih]
    · simp [h, ih]

/-- deleted_count of the expiry sweep: the number of expired entries whose
file existed and whose unlink succeeded. -/
lemma expiryNames_snd (cutoff : ℚ) (l : List CEntry) :
    (expiryNames cutoff l).2 =
      (l.filter (fun e => decide (e.created_time < cutoff) && fileGone e)).length := by
  induction l with
  | nil => rfl
  | cons e rest ih =>
    unfold expiryNames
    by_cases h : e.created_time < cutoff
    · by_cases hg : fileGone e
      · simp [h, hg, ih]
        omega
      · simp [h, hg, ih]
    · simp [h, ih]

/-- With pairwise distinct filenames, equality of filenames of two index
members forces equality of the members. -/
lemma nodup_filename_inj {l : List CEntry}
    (hnd : (l.map (fun e => e.filename)).Nodup)
    {a b : CEntry} (ha : a ∈ l) (hb : b ∈ l) (hfn : a.filename = b.filename) :
    a = b := by
  by_contra hne
  have hp : l.Pairwise (fun x y => x.filename ≠ y.filename) :=
    (List.pairwise_map).mp hnd
  have hsym : Symmetric (fun x y : CEntry => x.filename ≠ y.filename) :=
    fun x y h hxy => h hxy.symm
  exact hp.forall hsym ha hb hne hfn

/-- Dropping from the index the filenames of the entries selected by P is,
for an index with distinct filenames, the same as filtering P out. -/
lemma filter_not_contains_names (P : CEntry → Bool) (l : List CEntry)
    (hnd : (l.map (fun e => e.filename)).Nodup) :
    l.filter (fun e => !(((l.filter P).map (fun e2 => e2.filename)).contains e.filename)) =
    l.filter (fun e => !(P e)) := by
  apply List.filter_congr
  intro e he
  congr 1
  by_cases hP : P e
  · have hmem : e.filename ∈ (l.filter P).map (fun e2 => e2.filename) :=
      List.mem_map.mpr ⟨e, List.mem_filter.mpr ⟨he, hP⟩, rfl⟩
    rw [hP]
    exact List.elem_iff.mpr hmem
  · have hnotmem : e.filename ∉ (l.filter P).map (fun e2 => e2.filename) := by
      intro hmem
      obtain ⟨e2, he2, hfn⟩ := List.mem_map.mp hmem
      obtain ⟨he2l, he2P⟩ := List.mem_filter.mp he2
      have : e2 = e := nodup_filename_inj hnd he2l he hfn
      rw [this] at he2P
      exact hP he2P
    have hP2 : P e = false := Bool.eq_false_iff.mpr hP
    rw [hP2]
    exact Bool.eq_false_iff.mpr (fun hc => hnotmem (List.elem_iff.mp hc))

/-- C5, amended: enforce_expiry removes from the index exactly the entries
with created_time < now - days (removed even when the file is absent or
the delete fails) and leaves every other entry untouched; but the returned
value counts only the files actually unlinked, which equals the number of
entries removed only when every expired entry had a deletable file. -/
theorem C5_amended_expiry :
    ∀ (now days : ℚ) (idx : List CEntry),
      (idx.map (fun e => e.filename)).Nodup →
      (enforceExpiry now days idx).1 =
        idx.filter (fun e => !(decide (e.created_time < now - days * 24 * 60 * 60))) ∧
      (enforceExpiry now days idx).2 =
        (idx.filter (fun e =>
          decide (e.created_time < now - days * 24 * 60 * 60) && fileGone e)).length ∧
      ((∀ e ∈ idx, e.created_time < now - days * 24 * 60 * 60 → fileGone e = true) →
        (enforceExpiry now days idx).2 =
          idx.length - (enforceExpiry now days idx).1.length) := by
  intro now days idx hnd
  have h1 : (enforceExpiry now days idx).1 =
      idx.filter (fun e => !(decide (e.created_time < now - days * 24 * 60 * 60))) := by
    simp only [enforceExpiry]
    rw [expiryNames_fst]
    exact filter_not_contains_names _ idx hnd
  have h2 : (enforceExpiry now days idx).2 =
      (idx.filter (fun e =>
        decide (e.created_time < now - days * 24 * 60 * 60) && fileGone e)).length := by
    simp only [enforceExpiry]
    rw [expiryNames_snd]
  refine ⟨h1, h2, fun hall => ?_⟩
  rw [h1, h2]
  have hfe : idx.filter (fun e =>
      decide (e.created_time < now - days * 24 * 60 * 60) && fileGone e) =
      idx.filter (fun e => decide (e.created_time < now - days * 24 * 60 * 60)) := by
    apply List.filter_congr
    intro e he
    by_cases hP : e.created_time < now - days * 24 * 60 * 60
    · simp [hP, hall e he hP]
    · simp [hP]
  rw [hfe]
  have := List.length_eq_length_filter_add
    (l := idx) (fun e => decide (e.created_time < now - days * 24 * 60 * 60))
  omega

/-- C5, counterexample: an index holding a single expired entry whose file
is absent: enforce_expiry removes the entry from the index (one entry
deleted) yet returns 0, so the returned value does not equal the number of
entries deleted. -/
theorem C5_counterexample :
    enforceExpiry 1000000 1 [⟨"a", 100, 0, 0, false, false⟩] = ([], 0) ∧
    ([(⟨"a", 100, 0, 0, false, false⟩ : CEntry)].length : Nat) = 1 ∧
    (0 : Nat) ≠ 1 := by
  have hlt : (0 : ℚ) < 1000000 - 1 * 24 * 60 * 60 := by norm_num
  have hlt2 : (24 * 60 * 60 : ℚ) < 1000000 := by norm_num
  refine ⟨?_, rfl, by decide⟩
  simp [enforceExpiry, expiryNames, fileGone, hlt, hlt2]

/-- C5, witness: the amended theorem applied to a one-entry index with a
deletable expired file. -/
theorem C5_witness :
    (enforceExpiry 1000000 1 [⟨"a", 100, 0, 0, true, true⟩]).1 =
      [(⟨"a", 100, 0, 0, true, true⟩ : CEntry)].filter
        (fun e => !(decide (e.created_time < 1000000 - 1 * 24 * 60 * 60))) :=
  (C5_amended_expiry 1000000 1 [⟨"a", 100, 0, 0, true, true⟩] (by simp)).1

lemma sumSizes_cons (e : CEntry) (l : List CEntry) :
    sumSizes (e :: l) = (e.size_bytes : ℚ) + sumSizes l := by
  simp [sumSizes]

lemma sumSizes_append (l1 l2 : List CEntry) :
    sumSizes (l1 ++ l2) = sumSizes l1 + sumSizes l2 := by
  simp [sumSizes]

lemma sumSizes_perm {l1 l2 : List CEntry} (h : l1.Perm l2) :
    sumSizes l1 = sumSizes l2 :=
  (h.map _).sum_eq

/-- The eviction loop evicts a prefix of the sorted entry list: there is a
cut point k such that the filenames put in files_to_remove are exactly the
first k sorted filenames, deleted_count is k (all files deletable here),
the loop ran only while the running total still exceeded the budget, and
it stopped either within budget or after consuming the whole list. -/
lemma evictNames_spec (B : ℚ) :
    ∀ (l : List CEntry) (total : ℚ),
      (∀ e ∈ l, fileGone e = true) →
      ∃ k, k ≤ l.length ∧
        (evictNames B total l).1 = (l.take k).map (fun e => e.filename) ∧
        (evictNames B total l).2 = k ∧
        (∀ j, j < k → B < total - sumSizes (l.take j)) ∧
        (total - sumSizes (l.take k) ≤ B ∨ k = l.length) := by
  intro l
  induction l with
  | nil =>
    intro total hg
    exact ⟨0, Nat.le_refl 0, rfl, rfl,
      fun j hj => absurd hj (Nat.not_lt_zero j), Or.inr rfl⟩
  | cons e rest ih =>
    intro total hg
    by_cases htot : total ≤ B
    · have heq : evictNames B total (e :: rest) = ([], 0) := by
        unfold evictNames
        rw [if_pos htot]
      refine ⟨0, Nat.zero_le _, by simp [heq], by simp [heq],
        fun j hj => absurd hj (Nat.not_lt_zero j), Or.inl ?_⟩
      simpa [sumSizes] using htot
    · have hge : fileGone e = true := hg e (by simp)
      obtain ⟨k2, hk2len, hfst, hsnd, hmin, hdisj⟩ :=
        ih (total - (e.size_bytes : ℚ)) (fun x hx => hg x (by simp [hx]))
      refine ⟨k2 + 1, by simpa using Nat.succ_le_succ hk2len, ?_, ?_, ?_, ?_⟩
      · simp only [evictNames, hge, if_true]
        rw [if_neg htot]
        simp [hfst, List.take_succ_cons]
      · simp only [evictNames, hge, if_true]
        rw [if_neg htot]
        simp [hsnd]
        omega
      · intro j hj
        cases j with
        | zero =>
          simpa [sumSizes] using lt_of_not_le htot
        | succ j2 =>
          have hh := hmin j2 (by omega)
          simp only [List.take_succ_cons, sumSizes_cons]
          linarith
      · rcases hdisj with hd | hd
        · left
          simp only [List.take_succ_cons, sumSizes_cons]
          linarith
        · right
          simp [hd]

/-- Filtering a list against a blacklist that covers its first k elements
and misses the rest leaves precisely the elements past position k. -/
lemma filter_not_names (l : List CEntry) (k : Nat) (ns : List String)
    (h1 : ∀ a ∈ l.take k, a.filename ∈ ns)
    (h2 : ∀ a ∈ l.drop k, a.filename ∉ ns) :
    l.filter (fun e => !(ns.contains e.filename)) = l.drop k := by
  conv_lhs => rw [← List.take_append_drop k l]
  rw [List.filter_append]
  have hnil : (l.take k).filter (fun e => !(ns.contains e.filename)) = [] := by
    rw [List.filter_eq_nil_iff]
    intro a ha
    simp [h1 a ha]
  have hself : (l.drop k).filter (fun e => !(ns.contains e.filename)) = l.drop k := by
    rw [List.filter_eq_self]
    intro a ha
    simp [h2 a ha]
  rw [hnil, hself]
  simp

/-- Filtering out of a distinct-filename list the filenames of its first k
elements leaves precisely the elements past position k. -/
lemma filter_not_take_names (l : List CEntry) (k : Nat)
    (hnd : (l.map (fun e => e.filename)).Nodup) :
    l.filter (fun e => !(((l.take k).map (fun e2 => e2.filename)).contains e.filename)) =
    l.drop k := by
  have hsplitnames : (l.map (fun e => e.filename)) =
      ((l.take k).map (fun e => e.filename)) ++ ((l.drop k).map (fun e => e.filename)) := by
    rw [← List.map_append, List.take_append_drop]
  rw [hsplitnames] at hnd
  have hdisj := (List.nodup_append.mp hnd).2.2
  apply filter_not_names
  · intro a ha
    exact List.mem_map.mpr ⟨a, ha, rfl⟩
  · intro a ha
    exact fun hc => hdisj hc (List.mem_map.mpr ⟨a, ha, rfl⟩)

/-- C4: enforce_size_limit evicts in ascending last_accessed order (the
sorted view is ordered by accessLE and the evicted entries are its first k
elements), it evicts only while the total tracked size still exceeds the
budget, afterwards the total tracked size is within the budget (or one
oversized entry remains), and in the three-entry scenario with t1 < t2 <
t3 and a budget that fits only two, exactly the t1 entry is evicted. -/
theorem C4_lru_eviction :
    (∀ (idx : List CEntry) (B : ℚ),
      0 ≤ B → (∀ e ∈ idx, fileGone e = true) →
      (idx.map (fun e => e.filename)).Nodup →
      List.Pairwise accessLE (sortByAccess idx) ∧
      ∃ k, k ≤ (sortByAccess idx).length ∧
        (enforceSizeLimit B idx).1 = idx.filter (fun e =>
          !((((sortByAccess idx).take k).map (fun e2 => e2.filename)).contains
            e.filename)) ∧
        (enforceSizeLimit B idx).2 = k ∧
        (∀ j, j < k → B < sumSizes ((sortByAccess idx).drop j)) ∧
        sumSizes ((sortByAccess idx).drop k) ≤ B ∧
        (sumSizes (enforceSizeLimit B idx).1 ≤ B ∨
          ((enforceSizeLimit B idx).1.length = 1 ∧
            B < sumSizes (enforceSizeLimit B idx).1))) ∧
    (∀ (e1 e2 e3 : CEntry) (B : ℚ),
      fileGone e1 = true → fileGone e2 = true → fileGone e3 = true →
      e1.last_accessed < e2.last_accessed → e2.last_accessed < e3.last_accessed →
      e1.filename ≠ e2.filename → e1.filename ≠ e3.filename →
      e2.filename ≠ e3.filename →
      sumSizes [e2, e3] ≤ B → B < sumSizes [e1, e2, e3] →
      enforceSizeLimit B [e1, e2, e3] = ([e2, e3], 1)) := by
  constructor
  · intro idx B hB hgone hnd
    have hperm : (sortByAccess idx).Perm idx := List.perm_insertionSort _ _
    have hsort : List.Pairwise accessLE (sortByAccess idx) :=
      List.sorted_insertionSort _ _
    refine ⟨hsort, ?_⟩
    have hsum : sumSizes (sortByAccess idx) = sumSizes idx := sumSizes_perm hperm
    by_cases htot : sumSizes idx ≤ B
    · have henf : enforceSizeLimit B idx = (idx, 0) := by
        simp only [enforceSizeLimit]
        rw [if_pos htot]
      refine ⟨0, Nat.zero_le _, ?_, by rw [henf],
        fun j hj => absurd hj (Nat.not_lt_zero j), ?_, Or.inl (by rw [henf]; exact htot)⟩
      · rw [henf]
        simp
      · rw [List.drop_zero, hsum]
        exact htot
    · have hgone2 : ∀ e ∈ sortByAccess idx, fileGone e = true :=
        fun e he => hgone e (hperm.mem_iff.mp he)
      obtain ⟨k, hklen, hfst, hsnd, hmin, hdisj⟩ :=
        evictNames_spec B (sortByAccess idx) (sumSizes idx) hgone2
      have henf1 : (enforceSizeLimit B idx).1 = idx.filter (fun e =>
          !((evictNames B (sumSizes idx) (sortByAccess idx)).1.contains e.filename)) := by
        simp only [enforceSizeLimit]
        rw [if_neg htot]
      have henf2 : (enforceSizeLimit B idx).2 =
          (evictNames B (sumSizes idx) (sortByAccess idx)).2 := by
        simp only [enforceSizeLimit]
        rw [if_neg htot]
      have hdropsum : ∀ j, sumSizes ((sortByAccess idx).drop j) =
          sumSizes idx - sumSizes ((sortByAccess idx).take j) := by
        intro j
        have hh := sumSizes_append ((sortByAccess idx).take j) ((sortByAccess idx).drop j)
        rw [List.take_append_drop, hsum] at hh
        linarith
      have hndsorted : ((sortByAccess idx).map (fun e => e.filename)).Nodup :=
        ((hperm.map _).nodup_iff).mpr hnd
      have hremsum : sumSizes (enforceSizeLimit B idx).1 =
          sumSizes ((sortByAccess idx).drop k) := by
        rw [henf1, hfst]
        have hpf := (hperm.filter (fun e =>
          !((((sortByAccess idx).take k).map (fun e2 => e2.filename)).contains
            e.filename))).symm
        rw [sumSizes_perm hpf, filter_not_take_names _ _ hndsorted]
      have hdk : sumSizes ((sortByAccess idx).drop k) ≤ B := by
        rcases hdisj with hd | hd
        · rw [hdropsum k]
          linarith
        · rw [hd, List.drop_length]
          simpa [sumSizes] using hB
      refine ⟨k, hklen, by rw [henf1, hfst], by rw [henf2, hsnd], ?_, hdk,
        Or.inl (by rw [hremsum]; exact hdk)⟩
      intro j hj
      rw [hdropsum j]
      have hh := hmin j hj
      linarith
  · intro e1 e2 e3 B hg1 hg2 hg3 h12 h23 hf12 hf13 hf23 hsum23 hsumall
    have h13 : e1.last_accessed < e3.last_accessed := lt_trans h12 h23
    have hsort : sortByAccess [e1, e2, e3] = [e1, e2, e3] := by
      unfold sortByAccess
      simp [List.insertionSort, List.orderedInsert, accessLE,
        le_of_lt h12, le_of_lt h23, le_of_lt h13]
    have htotgt : ¬ sumSizes [e1, e2, e3] ≤ B := not_le.mpr hsumall
    have ht2 : sumSizes [e1, e2, e3] - (e1.size_bytes : ℚ) ≤ B := by
      simp only [sumSizes, List.map_cons, List.map_nil, List.sum_cons,
        List.sum_nil] at hsum23 ⊢
      linarith
    have hev : evictNames B (sumSizes [e1, e2, e3]) [e1, e2, e3] =
        ([e1.filename], 1) := by
      unfold evictNames
      rw [if_neg htotgt]
      simp only [hg1, if_true]
      unfold evictNames
      rw [if_pos ht2]
      rfl
    have hne21 : e2.filename ≠ e1.filename := fun h => hf12 h.symm
    have hne31 : e3.filename ≠ e1.filename := fun h => hf13 h.symm
    simp only [enforceSizeLimit]
    rw [if_neg htotgt, hsort, hev]
    simp [List.contains, hne21, hne31]

/-- C4, witness: the three-entry LRU scenario at concrete entries and a
budget of 25 bytes against sizes 10 + 10 + 10. -/
theorem C4_witness :
    enforceSizeLimit 25
      [⟨"a", 10, 0, 1, true, true⟩, ⟨"b", 10, 0, 2, true, true⟩,
        ⟨"c", 10, 0, 3, true, true⟩] =
      ([⟨"b", 10, 0, 2, true, true⟩, ⟨"c", 10, 0, 3, true, true⟩], 1) :=
  C4_lru_eviction.2 ⟨"a", 10, 0, 1, true, true⟩ ⟨"b", 10, 0, 2, true, true⟩
    ⟨"c", 10, 0, 3, true, true⟩ 25 rfl rfl rfl (by norm_num) (by norm_num)
    (by decide) (by decide) (by decide) (by norm_num [sumSizes]) (by norm_num [sumSizes])

/-- The HRRR search never downloads a candidate that was present in the
cache: every download event belongs to a candidate whose cache check
missed. -/
lemma hrrr_download_not_cached (cached netOk : Cand → Bool) (offline : Bool)
    (target now : ℤ) :
    ∀ (hbs : List Nat) (c : Cand) (b : Bool),
      FetchEvent.download c b ∈ (hrrrSearch cached netOk offline target now hbs).1 →
      cached c = false := by
  intro hbs
  induction hbs with
  | nil =>
    intro c b h
    simp [hrrrSearch] at h
  | cons hb rest ih =>
    intro c b h
    simp only [hrrrSearch] at h
    split_ifs at h with h1 h2 h3 h4
    · exact ih c b h
    · simp at h
    · simp only [List.mem_cons] at h
      rcases h with h | h
      · simp at h
      · exact ih c b h
    · simp only [List.mem_cons, List.not_mem_nil] at h
      rcases h with h | h | h
      · simp at h
      · simp only [FetchEvent.download.injEq] at h
        rw [h.1]
        exact Bool.eq_false_iff.mpr h2
      · simp at h
    · simp only [List.mem_cons] at h
      rcases h with h | h
      · simp at h
      · rcases h with h | h
        · simp only [FetchEvent.download.injEq] at h
          rw [h.1]
          exact Bool.eq_false_iff.mpr h2
        · exact ih c b h

/-- The HRRR search registers a file with the CacheManager only for a
candidate whose cache check missed and whose download succeeded, and the
successful download event is in the same trace. -/
lemma hrrr_register_after_download (cached netOk : Cand → Bool) (offline : Bool)
    (target now : ℤ) :
    ∀ (hbs : List Nat) (c : Cand),
      FetchEvent.registerFile c ∈ (hrrrSearch cached netOk offline target now hbs).1 →
      cached c = false ∧ netOk c = true ∧
      FetchEvent.download c true ∈ (hrrrSearch cached netOk offline target now hbs).1 := by
  intro hbs
  induction hbs with
  | nil =>
    intro c h
    simp [hrrrSearch] at h
  | cons hb rest ih =>
    intro c h
    simp only [hrrrSearch]
    simp only [hrrrSearch] at h
    split_ifs at h with h1 h2 h3 h4
    · rw [if_pos h1]
      exact ih c h
    · simp at h
    · simp only [List.mem_cons] at h
      rcases h with h | h
      · simp at h
      · rw [if_neg h1, if_neg h2, if_pos h3]
        obtain ⟨hc, hn, hd⟩ := ih c h
        exact ⟨hc, hn, List.mem_cons_of_mem _ hd⟩
    · simp only [List.mem_cons, List.not_mem_nil] at h
      rcases h with h | h | h
      · simp at h
      · simp at h
      · simp only [FetchEvent.registerFile.injEq, or_false] at h
        subst h
        rw [if_neg h1, if_neg h2, if_neg h3, if_pos h4]
        exact ⟨Bool.eq_false_iff.mpr h2, h4, by simp⟩
    · simp only [List.mem_cons] at h
      rcases h with h | h
      · simp at h
      · rcases h with h | h
        · simp at h
        · rw [if_neg h1, if_neg h2, if_neg h3, if_neg h4]
          obtain ⟨hc, hn, hd⟩ := ih c h
          exact ⟨hc, hn, List.mem_cons_of_mem _ (List.mem_cons_of_mem _ hd)⟩

/-- A cache hit ends the HRRR search with that candidate: the hit check is
followed by the access-time update and the search result is that
candidate. -/
lemma hrrr_hit_stops (cached netOk : Cand → Bool) (offline : Bool)
    (target now : ℤ) :
    ∀ (hbs : List Nat) (c : Cand),
      FetchEvent.cacheCheck c true ∈ (hrrrSearch cached netOk offline target now hbs).1 →
      cached c = true ∧
      (hrrrSearch cached netOk offline target now hbs).2 = some c ∧
      FetchEvent.accessUpdate c ∈ (hrrrSearch cached netOk offline target now hbs).1 := by
  intro hbs
  induction hbs with
  | nil =>
    intro c h
    simp [hrrrSearch] at h
  | cons hb rest ih =>
    intro c h
    simp only [hrrrSearch]
    simp only [hrrrSearch] at h
    split_ifs at h with h1 h2 h3 h4
    · rw [if_pos h1]
      exact ih c h
    · simp only [List.mem_cons, List.not_mem_nil] at h
      rcases h with h | h
      · simp only [FetchEvent.cacheCheck.injEq] at h
        obtain ⟨hc, -⟩ := h
        subst hc
        rw [if_neg h1, if_pos h2]
        exact ⟨h2, rfl, by simp⟩
      · simp at h
    · simp only [List.mem_cons] at h
      rcases h with h | h
      · simp at h
      · rw [if_neg h1, if_neg h2, if_pos h3]
        obtain ⟨hc, hr, ha⟩ := ih c h
        exact ⟨hc, hr, List.mem_cons_of_mem _ ha⟩
    · simp only [List.mem_cons, List.not_mem_nil] at h
      rcases h with h | h | h
      · simp at h
      · simp at h
      · simp at h
    · simp only [List.mem_cons] at h
      rcases h with h | h
      · simp at h
      · rcases h with h | h
        · simp at h
        · rw [if_neg h1, if_neg h2, if_neg h3, if_neg h4]
          obtain ⟨hc, hr, ha⟩ := ih c h
          exact ⟨hc, hr, List.mem_cons_of_mem _ (List.mem_cons_of_mem _ ha)⟩

/-- Every event the SFBOFS search emits is a direct OpenDAP open: it never
checks the cache, never updates an access time and never registers a
file. -/
lemma sfbofs_no_cache_events (netOk : Cand → Bool) (target now : ℤ) :
    ∀ (pairs : List (Nat × Nat)) (e : FetchEvent),
      e ∈ (sfbofsSearch netOk target now pairs).1 →
      e.isCacheEvent = false := by
  intro pairs
  induction pairs with
  | nil =>
    intro e h
    simp [sfbofsSearch] at h
  | cons p rest ih =>
    obtain ⟨db, cyc⟩ := p
    intro e h
    simp only [sfbofsSearch] at h
    split_ifs at h with h1 h2 h3
    · exact ih e h
    · exact ih e h
    · simp only [List.mem_cons, List.not_mem_nil, or_false] at h
      rw [h]
      rfl
    · simp only [List.mem_cons] at h
      rcases h with h | h
      · rw [h]
        rfl
      · exact ih e h

/-- C3, amended: only the regular-grid (hrrr) source follows the
cache-then-network discipline: it never attempts a download for a cached
candidate, it registers a file exactly on a successful download after a
cache miss, and a cache hit updates the access time and ends the search
with that candidate.  The unstructured-mesh (sfbofs) source does not: its
fetch_and_build emits only direct OpenDAP opens and never touches the
cache or the CacheManager. -/
theorem C3_amended_cache_discipline :
    (∀ (cached netOk : Cand → Bool) (offline : Bool) (target now : ℤ)
        (hbs : List Nat) (c : Cand) (b : Bool),
      FetchEvent.download c b ∈ (hrrrSearch cached netOk offline target now hbs).1 →
      cached c = false) ∧
    (∀ (cached netOk : Cand → Bool) (offline : Bool) (target now : ℤ)
        (hbs : List Nat) (c : Cand),
      FetchEvent.registerFile c ∈ (hrrrSearch cached netOk offline target now hbs).1 →
      cached c = false ∧ netOk c = true ∧
      FetchEvent.download c true ∈ (hrrrSearch cached netOk offline target now hbs).1) ∧
    (∀ (cached netOk : Cand → Bool) (offline : Bool) (target now : ℤ)
        (hbs : List Nat) (c : Cand),
      FetchEvent.cacheCheck c true ∈ (hrrrSearch cached netOk offline target now hbs).1 →
      cached c = true ∧
      (hrrrSearch cached netOk offline target now hbs).2 = some c ∧
      FetchEvent.accessUpdate c ∈ (hrrrSearch cached netOk offline target now hbs).1) ∧
    (∀ (netOk : Cand → Bool) (target now : ℤ) (pairs : List (Nat × Nat))
        (e : FetchEvent),
      e ∈ (sfbofsSearch netOk target now pairs).1 → e.isCacheEvent = false) :=
  ⟨fun cached netOk offline target now hbs c b h =>
      hrrr_download_not_cached cached netOk offline target now hbs c b h,
    fun cached netOk offline target now hbs c h =>
      hrrr_register_after_download cached netOk offline target now hbs c h,
    fun cached netOk offline target now hbs c h =>
      hrrr_hit_stops cached netOk offline target now hbs c h,
    fun netOk target now pairs e h =>
      sfbofs_no_cache_events netOk target now pairs e h⟩

/-- On the first viable candidate with a working remote, the SFBOFS search
returns immediately with a single direct OpenDAP open (target = now =
1728079200, a 22:00 UTC instant; the newest viable cycle is the same day
at 21z with forecast hour 1). -/
lemma sfbofs_first_candidate (rest : List (Nat × Nat)) :
    sfbofsSearch (fun _ => true) 1728079200 1728079200 ((0, 21) :: rest) =
      ([FetchEvent.opendapOpen (1728075600, 1) true], some (1728075600, 1)) := by
  have hcycle : dayStart (1728079200 - 86400 * ((0 : Nat) : ℤ)) + 3600 * ((21 : Nat) : ℤ) =
      1728075600 := by decide
  have hnotfuture : ¬ (1728079200 : ℤ) < 1728075600 := by decide
  have hfh : pyRound (((1728079200 - 1728075600 : ℤ) : ℚ) / 3600) = 1 := by
    have hq : (((1728079200 - 1728075600 : ℤ) : ℚ) / 3600) = 1 := by norm_num
    rw [hq]
    unfold pyRound
    norm_num
  have hrange : ¬ ((1 : ℤ) < 0 ∨ 48 < (1 : ℤ)) := by decide
  simp only [sfbofsSearch, hcycle]
  rw [if_neg hnotfuture, hfh, if_neg hrange]
  simp

/-- C3, counterexample: a concrete run of the SFBOFS fetch search whose
whole trace is one successful direct OpenDAP open: there is no cache
check before the remote acquisition, no access-time update, and no
registration with the CacheManager, contradicting the claimed cache-then-
network order. -/
theorem C3_counterexample :
    (sfbofsFetch (fun _ => true) 1728079200 1728079200).1 =
      [FetchEvent.opendapOpen (1728075600, 1) true] ∧
    (sfbofsFetch (fun _ => true) 1728079200 1728079200).2 = some (1728075600, 1) ∧
    FetchEvent.isCacheEvent (FetchEvent.opendapOpen (1728075600, 1) true) = false := by
  have hpairs : ((List.range 3).flatMap
      (fun db => [21, 15, 9, 3].map (fun cyc => (db, cyc)))) =
      (0, 21) :: [(0, 15), (0, 9), (0, 3), (1, 21), (1, 15), (1, 9), (1, 3),
        (2, 21), (2, 15), (2, 9), (2, 3)] := by decide
  unfold sfbofsFetch
  rw [hpairs, sfbofs_first_candidate]
  exact ⟨rfl, rfl, rfl⟩

/-- C3, witness: the amended theorem applied to a concrete cache-miss
download (conjunct on downloads) and to a concrete SFBOFS trace event
(conjunct on the mesh source never touching the cache). -/
theorem C3_witness :
    (fun _ : Cand => false) (floorHour (1728079200 - 3600 * ((0 : Nat) : ℤ)),
      (1728079200 - floorHour (1728079200 - 3600 * ((0 : Nat) : ℤ))).tdiv 3600) = false ∧
    FetchEvent.isCacheEvent (FetchEvent.opendapOpen (1728075600, 1) true) = false :=
  ⟨C3_amended_cache_discipline.1 (fun _ => false) (fun _ => true) false
      1728079200 1728079200 [0]
      (floorHour (1728079200 - 3600 * ((0 : Nat) : ℤ)),
        (1728079200 - floorHour (1728079200 - 3600 * ((0 : Nat) : ℤ))).tdiv 3600) true (by
        have hrun : floorHour (1728079200 - 3600 * ((0 : Nat) : ℤ)) = 1728079200 := by decide
        have hfh : (1728079200 - floorHour (1728079200 - 3600 * ((0 : Nat) : ℤ))).tdiv 3600
            = 0 := by decide
        simp only [hrrrSearch, hrun, hfh]
        norm_num),
    C3_amended_cache_discipline.2.2.2 (fun _ => true) 1728079200 1728079200
      ((0, 21) :: []) (FetchEvent.opendapOpen (1728075600, 1) true) (by
        rw [sfbofs_first_candidate]
        simp)⟩

/-- C10, witness: an unknown data type yields the ValueError, and the two
known types yield paths, at a concrete cycle time. -/
theorem C10_witness :
    ∃ e, getCachePath "gfs" ⟨2025, 1, 30, 14⟩ 6 = Except.error e :=
  (C10_cache_path_error_iff "gfs" ⟨2025, 1, 30, 14⟩ 6).1.mpr ⟨by decide, by decide⟩

end SFBaySim
